import Mathlib

/-!
Verification development for the Online Marketplace Management System
(`final.cpp`), a single-file C++ console program.

Shallow embedding conventions:
* C++ `int` is modelled as `Int`; C++ `double` as `Rat` (exact arithmetic).
* `std::stack<CartItem>` is a `List CartItem` whose head is the top of the
  stack; `std::queue<CartItem>` is a `List CartItem` whose head is the front.
* The interactive rating input (`cin >> r`) is modelled as a `List Int` of the
  numbers the user types; the blocking re-prompt loop in `processCheckout`
  scans this list for the first value in `[1,5]`.  A checkout that never
  receives a valid rating blocks forever in the source; such runs are
  modelled as `none`.
* The four flat files are modelled as lists of typed field tuples (one tuple
  per line); field formatting/parsing is taken as exact.
-/

/-- Model of class `Product` (final.cpp lines 38-83). -/
structure Product where
  id : Int
  name : String
  price : Rat
  category : String
  quantity : Int
  sellerId : Int
  ratingSum : Rat
  ratingCount : Int
deriving DecidableEq, Repr

/-- `Product::getAverageRating` (lines 66-69): safe division, 0 when unrated. -/
def Product.getAverageRating (p : Product) : Rat :=
  if p.ratingCount = 0 then 0 else p.ratingSum / (p.ratingCount : Rat)

/-- `Product::addRating` (lines 72-75). -/
def Product.addRating (p : Product) (rate : Rat) : Product :=
  { p with ratingSum := p.ratingSum + rate, ratingCount := p.ratingCount + 1 }

/-- Model of class `Seller` (lines 86-97). -/
structure Seller where
  id : Int
  name : String
  email : String
deriving DecidableEq, Repr

/-- Model of struct `CartItem` (lines 100-103): a product snapshot plus qty. -/
structure CartItem where
  product : Product
  buyQty : Int
deriving DecidableEq, Repr

/-- Model of class `Customer` (lines 106-126).  `cartStack` head = stack top. -/
structure Customer where
  id : Int
  name : String
  address : String
  phone : String
  email : String
  cartStack : List CartItem
deriving DecidableEq, Repr

/-- Model of the `Marketplace` controller state (lines 132-148). -/
structure Marketplace where
  sellers : List Seller
  customers : List Customer
  products : List Product
  productCounter : Int
  sellerCounter : Int
  customerCounter : Int
deriving DecidableEq, Repr

/-- One line item on the receipt printed by `processCheckout`:
either a successful purchase line (line 622) or the insufficient-stock
error line (line 640). -/
inductive ReceiptLine where
  | success (name : String) (qty : Int) (amount : Rat)
  | failure (name : String)
deriving DecidableEq, Repr

/-- The observable output of one checkout: its line items and total paid. -/
structure Receipt where
  lines : List ReceiptLine
  total : Rat
deriving DecidableEq, Repr

/-- The success line printed for a settled item (line 622): snapshot name,
requested quantity, snapshot price times quantity. -/
def successLine (i : CartItem) : ReceiptLine :=
  ReceiptLine.success i.product.name i.buyQty (i.product.price * i.buyQty)

/-- The error line printed for an insufficient-stock item (line 640). -/
def failLine (i : CartItem) : ReceiptLine :=
  ReceiptLine.failure i.product.name

/-- First product with a given id, mirroring the `for(auto &p : products)
if(p.id == pid)` scans used throughout the source. -/
def lookupProduct (pid : Int) : List Product → Option Product
  | [] => none
  | p :: rest => if p.id = pid then some p else lookupProduct pid rest

/-- Replace the first product with the given id by `f` of it, leaving the
rest of the vector unchanged (the in-place mutation plus `break` pattern of
the source loops). -/
def updateFirst (pid : Int) (f : Product → Product) : List Product → List Product
  | [] => []
  | p :: rest => if p.id = pid then f p :: rest else p :: updateFirst pid f rest

/-- The blocking rating-validation loop (lines 628-637): keep reading numbers
until one lies in `[1,5]`; return it with the unread input.  `none` models
the loop never terminating because no typed number is ever valid. -/
def acceptRating : List Int → Option (Int × List Int)
  | [] => none
  | x :: rest => if 1 ≤ x ∧ x ≤ 5 then some (x, rest) else acceptRating rest

/-- Settling one dequeued item against the live product vector
(lines 615-644): scan for the first product with the snapshot's id; if its
live quantity covers `buyQty`, deduct stock, emit the success line, charge
snapshot price times quantity, and apply the accepted rating; otherwise emit
the failure line and change nothing.  A missing id settles silently with no
line.  Returns `none` when the rating loop blocks. -/
def settleItem (item : CartItem) (input : List Int) :
    List Product → Option (List Product × Option ReceiptLine × Rat × List Int)
  | [] => some ([], none, 0, input)
  | p :: rest =>
    if p.id = item.product.id then
      if item.buyQty ≤ p.quantity then
        match acceptRating input with
        | none => none
        | some (r, input') =>
          some ((({ p with quantity := p.quantity - item.buyQty }).addRating (r : Rat)) :: rest,
            some (successLine item), item.product.price * item.buyQty, input')
      else
        some (p :: rest, some (failLine item), 0, input)
    else
      match settleItem item input rest with
      | none => none
      | some (rest', l, t, inp) => some (p :: rest', l, t, inp)

/-- The `while (!checkoutQueue.empty())` loop of `processCheckout`
(lines 611-645): settle each queued item in order, accumulating receipt
lines and the running total. -/
def processQueue : List CartItem → List Product → List Int →
    Option (List Product × List ReceiptLine × Rat × List Int)
  | [], ps, input => some (ps, [], 0, input)
  | item :: rest, ps, input =>
    match settleItem item input ps with
    | none => none
    | some (ps', l, t, input') =>
      match processQueue rest ps' input' with
      | none => none
      | some (psf, lines, tf, inpf) =>
        some (psf, (match l with | none => lines | some x => x :: lines), t + tf, inpf)

/-- The stack-to-queue transfer loop (lines 595-599): repeatedly pop the
cart stack and push onto the back of the checkout queue. -/
def stackToQueue : List CartItem → List CartItem → List CartItem
  | [], q => q
  | x :: s, q => stackToQueue s (q ++ [x])

/-- `Marketplace::processCheckout` (lines 585-652) for one customer against
the product vector.  Returns the updated customer, updated products, the
receipt (`none` when the cart was empty and checkout aborted), and whether
`saveData` was reached.  The whole result is `none` when the rating loop
blocks forever. -/
def processCheckout (c : Customer) (ps : List Product) (input : List Int) :
    Option (Customer × List Product × Option Receipt × Bool) :=
  if c.cartStack.isEmpty then
    some (c, ps, none, false)
  else
    match processQueue (stackToQueue c.cartStack []) ps input with
    | none => none
    | some (ps', lines, total, _) =>
      some ({ c with cartStack := [] }, ps', some ⟨lines, total⟩, true)

/-- A sequence of completed checkout operations, each by some customer with
some typed rating input, threaded through the shared product vector. -/
def runCheckouts : List (Customer × List Int) → List Product → Option (List Product)
  | [], ps => some ps
  | (c, inp) :: rest, ps =>
    match processCheckout c ps inp with
    | none => none
    | some (_, ps', _, _) => runCheckouts rest ps'

/-- The add-to-cart action of `customerMenu` choice 4 (lines 535-558):
locate the product by id; reject when the requested quantity exceeds live
stock (`qty > p.quantity`); otherwise push a snapshot item.  The Bool
reports whether an item was staged. -/
def addToCart (c : Customer) (ps : List Product) (pid qty : Int) : Customer × Bool :=
  match lookupProduct pid ps with
  | none => (c, false)
  | some p =>
    if p.quantity < qty then (c, false)
    else ({ c with cartStack := ⟨p, qty⟩ :: c.cartStack }, true)

/-- Extract a maximal element (w.r.t. `Product::operator<`, lines 80-83,
i.e. by average rating) together with the remaining elements.  This is the
observable behaviour of `std::priority_queue<Product>::top`/`pop`: some
maximal element comes out; the tie-break among equal ratings is
unspecified, and this model keeps the earliest maximal one. -/
def pqPop : Product → List Product → Product × List Product
  | b, [] => (b, [])
  | b, p :: rest =>
    if b.getAverageRating < p.getAverageRating then
      ((pqPop p rest).1, b :: (pqPop p rest).2)
    else
      ((pqPop b rest).1, p :: (pqPop b rest).2)

theorem pqPop_length (l : List Product) : ∀ b, (pqPop b l).2.length = l.length := by
  induction l with
  | nil => intro b; simp [pqPop]
  | cons p rest ih =>
    intro b
    by_cases h : b.getAverageRating < p.getAverageRating <;>
      simp [pqPop, h, ih]

/-- The extraction loop of `showTopRatedProducts` (lines 447-450): pop the
priority queue until empty, collecting products in pop order. -/
def pqDrain : List Product → List Product
  | [] => []
  | p :: rest => (pqPop p rest).1 :: pqDrain (pqPop p rest).2
termination_by l => l.length
decreasing_by
  simp only [pqPop_length, List.length_cons]
  omega

/-- `Marketplace::showTopRatedProducts` (lines 439-453): push every product
into a max-priority queue keyed by average rating and drain it. -/
def showTopRatedProducts (ps : List Product) : List Product := pqDrain ps

/-! ## Persistence (`saveData`, lines 191-221, and `loadData`, lines 224-312)

Files are modelled as lists of typed field tuples, one per written line. -/

/-- Lines of `sellers.txt`: `id|name|email` (line 194). -/
def saveSellers (m : Marketplace) : List (Int × String × String) :=
  m.sellers.map fun s => (s.id, s.name, s.email)

/-- Lines of `customers.txt`: `id|name|address|phone|email` (line 198). -/
def saveCustomers (m : Marketplace) : List (Int × String × String × String × String) :=
  m.customers.map fun c => (c.id, c.name, c.address, c.phone, c.email)

/-- Lines of `products.txt` (lines 201-205). -/
def saveProducts (m : Marketplace) :
    List (Int × String × Rat × String × Int × Int × Rat × Int) :=
  m.products.map fun p =>
    (p.id, p.name, p.price, p.category, p.quantity, p.sellerId, p.ratingSum, p.ratingCount)

/-- The cart lines one customer contributes: popped top-to-bottom off a copy
of the stack (lines 211-219), i.e. head-first in this model. -/
def cartLinesOf (c : Customer) : List (Int × Int × Int) :=
  c.cartStack.map fun i => (c.id, i.product.id, i.buyQty)

/-- Lines of `carts.txt`: customers in vector order, each contributing its
pop-order lines (lines 209-220; the `empty` guard there is a no-op). -/
def cartLines : List Customer → List (Int × Int × Int)
  | [] => []
  | c :: rest => cartLinesOf c ++ cartLines rest

def saveCarts (m : Marketplace) : List (Int × Int × Int) := cartLines m.customers

/-- Loading `sellers.txt` (lines 228-239): append each parsed seller and bump
the counter past any id seen. -/
def loadSellers : List (Int × String × String) → List Seller → Int → List Seller × Int
  | [], acc, ctr => (acc, ctr)
  | (i, n, e) :: rest, acc, ctr =>
    loadSellers rest (acc ++ [⟨i, n, e⟩]) (if ctr ≤ i then i + 1 else ctr)

/-- Loading `customers.txt` (lines 242-253): each customer starts with an
empty cart (the `Customer` constructor). -/
def loadCustomers : List (Int × String × String × String × String) →
    List Customer → Int → List Customer × Int
  | [], acc, ctr => (acc, ctr)
  | (i, n, a, ph, e) :: rest, acc, ctr =>
    loadCustomers rest (acc ++ [⟨i, n, a, ph, e, []⟩]) (if ctr ≤ i then i + 1 else ctr)

/-- Loading `products.txt` (lines 256-267). -/
def loadProducts : List (Int × String × Rat × String × Int × Int × Rat × Int) →
    List Product → Int → List Product × Int
  | [], acc, ctr => (acc, ctr)
  | (i, n, pr, cat, q, sid, rs, rc) :: rest, acc, ctr =>
    loadProducts rest (acc ++ [⟨i, n, pr, cat, q, sid, rs, rc⟩]) (if ctr ≤ i then i + 1 else ctr)

/-- Push an item onto the cart of the first customer with the given id
(the `for (auto &c : customers)` locate loop, lines 283-289). -/
def pushToCustomer (cid : Int) (item : CartItem) : List Customer → List Customer
  | [] => []
  | c :: rest =>
    if c.id = cid then { c with cartStack := item :: c.cartStack } :: rest
    else c :: pushToCustomer cid item rest

/-- Process one `carts.txt` line (lines 273-309): resolve the product and the
customer; push a reconstructed item (live product as snapshot) only when both
exist, otherwise drop the line silently. -/
def loadCartLine (ps : List Product) (cs : List Customer) :
    Int × Int × Int → List Customer
  | (cid, pid, qty) =>
    match lookupProduct pid ps with
    | none => cs
    | some p => pushToCustomer cid ⟨p, qty⟩ cs

/-- Loading `carts.txt` (lines 271-311): fold the lines in file order. -/
def loadCarts (ps : List Product) : List (Int × Int × Int) → List Customer → List Customer
  | [], cs => cs
  | line :: rest, cs => loadCarts ps rest (loadCartLine ps cs line)

/-- `Marketplace::loadData` (lines 224-312) run on a fresh store (all
collections empty, counters 1, as the field initializers set up). -/
def loadData (sL : List (Int × String × String))
    (cL : List (Int × String × String × String × String))
    (pL : List (Int × String × Rat × String × Int × Int × Rat × Int))
    (cartL : List (Int × Int × Int)) : Marketplace :=
  let s := loadSellers sL [] 1
  let c := loadCustomers cL [] 1
  let p := loadProducts pL [] 1
  ⟨s.1, loadCarts p.1 cartL c.1, p.1, p.2, s.2, c.2⟩

/-- Save all four files and load them back into a fresh store. -/
def roundTrip (m : Marketplace) : Marketplace :=
  loadData (saveSellers m) (saveCustomers m) (saveProducts m) (saveCarts m)

/-- A customer with the same scalar fields and an empty cart, as produced by
the `Customer` constructor during load. -/
def stripCart (c : Customer) : Customer := { c with cartStack := [] }

/-- Re-resolve a staged item's snapshot against the live product vector, as
reload does; identity when the id is unresolvable (such lines are dropped,
so this case is only a total-function placeholder). -/
def reResolve (ps : List Product) (i : CartItem) : CartItem :=
  match lookupProduct i.product.id ps with
  | none => i
  | some p => ⟨p, i.buyQty⟩

/-- What a save/load round trip actually does to one customer: scalar fields
kept, each cart item re-resolved, and the LIFO order reversed. -/
def reloadedCart (ps : List Product) (c : Customer) : Customer :=
  { c with cartStack := (c.cartStack.map (reResolve ps)).reverse }

/-- Modelled from the spec: `drainToArrivalOrder()` is specified to return
the staged items oldest-added first (spec section 4.2); with head = stack
top that is the reverse of the ledger. -/
def specArrivalOrder (c : Customer) : List CartItem := c.cartStack.reverse

/-- Bool check that a staged item's product resolves with enough live stock. -/
def stockOk (ps : List Product) (i : CartItem) : Bool :=
  match lookupProduct i.product.id ps with
  | none => false
  | some p => decide (i.buyQty ≤ p.quantity)

/-- The rating-statistics bound maintained by checkout: every accepted
rating lies in `[1,5]`, so the sum stays between the count and five times
the count. -/
abbrev RatingOK (p : Product) : Prop :=
  0 ≤ p.ratingCount ∧ (p.ratingCount : Rat) ≤ p.ratingSum ∧
    p.ratingSum ≤ 5 * (p.ratingCount : Rat)

/-- Ratings applied in sequence to a product (checkout applies
`p.addRating(r)` once per settled item). -/
def applyRatings (p : Product) (rs : List Rat) : Product :=
  rs.foldl Product.addRating p

/-! ## Concrete fixtures used by witnesses and counterexamples -/

/-- Fixture product A: id 1, price 10, stock 5, unrated. -/
def pA : Product := ⟨1, "A", 10, "c", 5, 1, 0, 0⟩

/-- Fixture product B: id 2, price 20, stock 5, unrated. -/
def pB : Product := ⟨2, "B", 20, "c", 5, 1, 0, 0⟩

/-- Staged item: one unit of A (snapshot taken while A had stock 5). -/
def itemA : CartItem := ⟨pA, 1⟩

/-- Staged item: one unit of B. -/
def itemB : CartItem := ⟨pB, 1⟩

/-- Fixture customer whose ledger holds A pushed first, then B (head = top). -/
def custEx : Customer := ⟨1, "N", "ad", "ph", "em", [itemB, itemA]⟩

/-- Fixture customer with an empty ledger. -/
def custFresh : Customer := ⟨2, "M", "ad", "ph", "em", []⟩

/-! ## Basic lemmas -/

theorem applyRatings_stats : ∀ (rs : List Rat) (p : Product),
    (applyRatings p rs).ratingSum = p.ratingSum + rs.sum ∧
    (applyRatings p rs).ratingCount = p.ratingCount + rs.length := by
  intro rs
  induction rs with
  | nil => intro p; simp [applyRatings]
  | cons r rest ih =>
    intro p
    have h := ih (p.addRating r)
    simp only [applyRatings, List.foldl_cons] at h ⊢
    obtain ⟨hs, hc⟩ := h
    refine ⟨?_, ?_⟩
    · rw [hs, List.sum_cons]; simp only [Product.addRating]; ring
    · rw [hc, List.length_cons]; simp only [Product.addRating]; push_cast; ring

theorem acceptRating_range : ∀ (input : List Int) (r : Int) (rest : List Int),
    acceptRating input = some (r, rest) → 1 ≤ r ∧ r ≤ 5 := by
  intro input
  induction input with
  | nil => intro r rest h; simp [acceptRating] at h
  | cons x xs ih =>
    intro r rest h
    rw [acceptRating] at h
    by_cases hx : 1 ≤ x ∧ x ≤ 5
    · rw [if_pos hx] at h
      cases h
      exact hx
    · rw [if_neg hx] at h
      exact ih _ _ h

theorem stackToQueue_eq : ∀ (s q : List CartItem), stackToQueue s q = q ++ s := by
  intro s
  induction s with
  | nil => intro q; simp [stackToQueue]
  | cons x rest ih => intro q; rw [stackToQueue, ih]; simp

/-! ## Claim theorems: empty cart, cart consumption, staging, average rating -/

/-- C6: settling an empty ledger aborts: the customer and product vector
are unchanged, no receipt is produced, and `saveData` is never reached. -/
theorem empty_cart_checkout_noop (c : Customer) (ps : List Product) (input : List Int)
    (h : c.cartStack = []) :
    processCheckout c ps input = some (c, ps, none, false) := by
  simp [processCheckout, h]

theorem empty_cart_checkout_noop_witness :
    processCheckout custFresh [pA] [] = some (custFresh, [pA], none, false) :=
  empty_cart_checkout_noop custFresh [pA] [] rfl

/-- C9: whenever checkout on a non-empty ledger returns, the ledger is
empty afterwards: staged items are consumed, never restored, regardless of
per-item outcomes. -/
theorem checkout_empties_cart (c : Customer) (ps : List Product) (input : List Int)
    (res : Customer × List Product × Option Receipt × Bool)
    (hne : c.cartStack ≠ []) (h : processCheckout c ps input = some res) :
    res.1.cartStack = [] := by
  have hie : c.cartStack.isEmpty = false := by
    cases hcs : c.cartStack with
    | nil => exact absurd hcs hne
    | cons a l => rfl
  unfold processCheckout at h
  rw [hie] at h
  simp only [Bool.false_eq_true, if_false] at h
  cases hq : processQueue (stackToQueue c.cartStack []) ps input with
  | none => rw [hq] at h; simp at h
  | some r =>
    obtain ⟨ps', lines, total, inp⟩ := r
    rw [hq] at h
    simp only [Option.some.injEq] at h
    rw [← h]

theorem checkout_empties_cart_witness :
    ((({ custEx with cartStack := [] } : Customer),
      ([⟨1, "A", 10, "c", 4, 1, 4, 1⟩, ⟨2, "B", 20, "c", 4, 1, 5, 1⟩] : List Product),
      some (⟨[successLine itemB, successLine itemA], 30⟩ : Receipt), true) :
        Customer × List Product × Option Receipt × Bool).1.cartStack = [] :=
  checkout_empties_cart custEx [pA, pB] [5, 4] _ (by decide)
    (by simp [processCheckout, processQueue, settleItem, stackToQueue, acceptRating,
          lookupProduct, Product.addRating, successLine, custEx, itemA, itemB, pA, pB]
        norm_num)

/-- C4 counterexample: add-to-cart gladly stages a zero-quantity item (it
only rejects `qty > p.quantity`), so a ledger can hold an item with
`buyQty = 0`, refuting `buyQty > 0`. -/
theorem addToCart_nonpositive_cex :
    (addToCart custFresh [pA] 1 0).2 = true ∧
    ∃ i ∈ (addToCart custFresh [pA] 1 0).1.cartStack, ¬ (0 < i.buyQty) := by decide

/-- C4 amended: when add-to-cart stages an item, the product was found and
the requested quantity is at most the live stock; the staged `buyQty` is the
raw request, which may be zero or negative. -/
theorem addToCart_staging_bound (c : Customer) (ps : List Product) (pid qty : Int)
    (c' : Customer) (h : addToCart c ps pid qty = (c', true)) :
    ∃ p, lookupProduct pid ps = some p ∧ qty ≤ p.quantity ∧
      c'.cartStack = ⟨p, qty⟩ :: c.cartStack := by
  unfold addToCart at h
  cases hl : lookupProduct pid ps with
  | none => rw [hl] at h; simp at h
  | some p =>
    rw [hl] at h
    dsimp only at h
    by_cases hq : p.quantity < qty
    · rw [if_pos hq] at h; simp at h
    · rw [if_neg hq] at h
      simp only [Prod.mk.injEq] at h
      exact ⟨p, rfl, by omega, by rw [← h.1]⟩

theorem addToCart_staging_bound_witness :
    ∃ p, lookupProduct 1 [pA] = some p ∧ (2 : Int) ≤ p.quantity ∧
      ({ custFresh with cartStack := [⟨pA, 2⟩] } : Customer).cartStack
        = [⟨p, 2⟩] :=
  addToCart_staging_bound custFresh [pA] 1 2 _ (by decide)

/-- C7: the average rating is the ratio of the stored sum and count (0 when
unrated), and after `n` accepted ratings on a fresh product it is exactly
their sum over `n`. -/
theorem averageRating_correct (p : Product) (pid : Int) (nm : String) (pr : Rat)
    (cat : String) (q sid : Int) (rs : List Rat) :
    (p.ratingCount = 0 → p.getAverageRating = 0) ∧
    (p.ratingCount ≠ 0 → p.getAverageRating = p.ratingSum / (p.ratingCount : Rat)) ∧
    (applyRatings (Product.mk pid nm pr cat q sid 0 0) rs).getAverageRating
      = rs.sum / (rs.length : Rat) := by
  refine ⟨fun h => by simp [Product.getAverageRating, h],
    fun h => by simp [Product.getAverageRating, h], ?_⟩
  obtain ⟨hs, hc⟩ := applyRatings_stats rs (Product.mk pid nm pr cat q sid 0 0)
  unfold Product.getAverageRating
  rw [hs, hc]
  simp only [zero_add]
  by_cases h0 : rs.length = 0
  · rw [List.length_eq_zero] at h0
    subst h0
    simp
  · rw [if_neg (by exact_mod_cast h0)]
    norm_num

theorem averageRating_correct_witness :
    (applyRatings (Product.mk 1 "W" 10 "c" 5 1 0 0) [3, 4]).getAverageRating = 7 / 2 :=
  ((averageRating_correct pA 1 "W" 10 "c" 5 1 [3, 4]).2.2).trans (by norm_num)

/-! ## Insufficient stock: line-item failure semantics -/

theorem settleItem_fail (item : CartItem) (input : List Int) (p : Product) :
    ∀ ps, lookupProduct item.product.id ps = some p → p.quantity < item.buyQty →
      settleItem item input ps = some (ps, some (failLine item), 0, input) := by
  intro ps
  induction ps with
  | nil => intro h _; simp [lookupProduct] at h
  | cons q rest ih =>
    intro hl hq
    by_cases hid : q.id = item.product.id
    · rw [lookupProduct, if_pos hid] at hl
      cases hl
      rw [settleItem, if_pos hid, if_neg (by omega)]
    · rw [lookupProduct, if_neg hid] at hl
      rw [settleItem, if_neg hid, ih hl hq]

/-- C5: an item whose live product cannot cover the requested quantity
yields exactly one failure line; the product vector is untouched, nothing
is charged, and the remaining queued items are processed as if the item
were absent. -/
theorem insufficient_stock_skips_item (item : CartItem) (rest : List CartItem)
    (ps : List Product) (input : List Int) (p : Product)
    (hl : lookupProduct item.product.id ps = some p)
    (hq : p.quantity < item.buyQty) :
    processQueue (item :: rest) ps input =
      match processQueue rest ps input with
      | none => none
      | some (psf, lines, t, inp) => some (psf, failLine item :: lines, t, inp) := by
  rw [processQueue, settleItem_fail item input p ps hl hq]
  dsimp only
  cases h : processQueue rest ps input with
  | none => rfl
  | some r =>
    obtain ⟨psf, lines, t, inp⟩ := r
    simp

/-- An item requesting ten units of A while only five are in stock. -/
def badItem : CartItem := ⟨pA, 10⟩

theorem insufficient_stock_skips_item_witness :
    lookupProduct badItem.product.id [pA, pB] = some pA ∧
    pA.quantity < badItem.buyQty ∧
    (processQueue [badItem, itemB] [pA, pB] [5] =
      match processQueue [itemB] [pA, pB] [5] with
      | none => none
      | some (psf, lines, t, inp) => some (psf, failLine badItem :: lines, t, inp)) :=
  ⟨by decide, by decide,
    insufficient_stock_skips_item badItem [itemB] [pA, pB] [5] pA (by decide) (by decide)⟩

/-! ## Invariant preservation through checkout -/

theorem settleItem_inv (item : CartItem) (input : List Int) (Inv : Product → Prop)
    (hmut : ∀ (p : Product) (r : Int), 1 ≤ r → r ≤ 5 → item.buyQty ≤ p.quantity → Inv p →
      Inv (({ p with quantity := p.quantity - item.buyQty }).addRating (r : Rat))) :
    ∀ ps ps' l t inp, (∀ p ∈ ps, Inv p) →
      settleItem item input ps = some (ps', l, t, inp) → ∀ p ∈ ps', Inv p := by
  intro ps
  induction ps with
  | nil =>
    intro ps' l t inp h0 h
    rw [settleItem] at h
    cases h
    simp
  | cons q rest ih =>
    intro ps' l t inp h0 h
    rw [settleItem] at h
    by_cases hid : q.id = item.product.id
    · rw [if_pos hid] at h
      by_cases hq : item.buyQty ≤ q.quantity
      · rw [if_pos hq] at h
        cases har : acceptRating input with
        | none => rw [har] at h; cases h
        | some rr =>
          obtain ⟨r, inp2⟩ := rr
          rw [har] at h
          dsimp only at h
          simp only [Option.some.injEq, Prod.mk.injEq] at h
          obtain ⟨h1, -, -, -⟩ := h
          subst h1
          intro p hp
          rcases List.mem_cons.mp hp with hp | hp
          · subst hp
            obtain ⟨hr1, hr5⟩ := acceptRating_range input r inp2 har
            exact hmut q r hr1 hr5 hq (h0 q (List.mem_cons_self q rest))
          · exact h0 p (List.mem_cons_of_mem q hp)
      · rw [if_neg hq] at h
        simp only [Option.some.injEq, Prod.mk.injEq] at h
        obtain ⟨h1, -, -, -⟩ := h
        subst h1
        exact h0
    · rw [if_neg hid] at h
      cases hs : settleItem item input rest with
      | none => rw [hs] at h; cases h
      | some r4 =>
        obtain ⟨rest', l2, t2, inp2⟩ := r4
        rw [hs] at h
        dsimp only at h
        simp only [Option.some.injEq, Prod.mk.injEq] at h
        obtain ⟨h1, -, -, -⟩ := h
        subst h1
        intro p hp
        rcases List.mem_cons.mp hp with hp | hp
        · subst hp; exact h0 _ (List.mem_cons_self _ rest)
        · exact ih rest' l2 t2 inp2 (fun x hx => h0 x (List.mem_cons_of_mem _ hx)) hs p hp

theorem processQueue_inv (Inv : Product → Prop)
    (hmut : ∀ (item : CartItem) (p : Product) (r : Int), 1 ≤ r → r ≤ 5 →
      item.buyQty ≤ p.quantity → Inv p →
      Inv (({ p with quantity := p.quantity - item.buyQty }).addRating (r : Rat))) :
    ∀ (items : List CartItem) (ps : List Product) (input : List Int) ps' lines t inp,
      (∀ p ∈ ps, Inv p) →
      processQueue items ps input = some (ps', lines, t, inp) → ∀ p ∈ ps', Inv p := by
  intro items
  induction items with
  | nil =>
    intro ps input ps' lines t inp h0 h
    rw [processQueue] at h
    cases h
    exact h0
  | cons item rest ih =>
    intro ps input ps' lines t inp h0 h
    rw [processQueue] at h
    cases hs : settleItem item input ps with
    | none => rw [hs] at h; cases h
    | some r4 =>
      obtain ⟨ps1, l1, t1, inp1⟩ := r4
      rw [hs] at h
      dsimp only at h
      have h1 : ∀ p ∈ ps1, Inv p := settleItem_inv item input Inv (hmut item) ps ps1 l1 t1 inp1 h0 hs
      cases hq : processQueue rest ps1 inp1 with
      | none => rw [hq] at h; cases h
      | some r5 =>
        obtain ⟨psf, lines2, t2, inp2⟩ := r5
        rw [hq] at h
        dsimp only at h
        simp only [Option.some.injEq, Prod.mk.injEq] at h
        obtain ⟨h2, -, -, -⟩ := h
        subst h2
        exact ih ps1 inp1 psf lines2 t2 inp2 h1 hq

theorem processCheckout_inv (Inv : Product → Prop)
    (hmut : ∀ (item : CartItem) (p : Product) (r : Int), 1 ≤ r → r ≤ 5 →
      item.buyQty ≤ p.quantity → Inv p →
      Inv (({ p with quantity := p.quantity - item.buyQty }).addRating (r : Rat)))
    (c : Customer) (ps : List Product) (input : List Int)
    (res : Customer × List Product × Option Receipt × Bool)
    (h0 : ∀ p ∈ ps, Inv p) (h : processCheckout c ps input = some res) :
    ∀ p ∈ res.2.1, Inv p := by
  unfold processCheckout at h
  by_cases hie : c.cartStack.isEmpty
  · rw [if_pos hie] at h
    cases h
    exact h0
  · rw [if_neg hie] at h
    cases hq : processQueue (stackToQueue c.cartStack []) ps input with
    | none => rw [hq] at h; cases h
    | some r4 =>
      obtain ⟨ps', lines, total, inp⟩ := r4
      rw [hq] at h
      cases h
      exact processQueue_inv Inv hmut (stackToQueue c.cartStack []) ps input ps' lines total inp h0 hq

/-- C3: starting from non-negative stock, any sequence of completed
checkouts leaves every product's quantity non-negative, because stock is
deducted only under the `p.quantity >= item.buyQty` guard. -/
theorem checkout_stock_nonneg (ops : List (Customer × List Int)) (ps ps' : List Product)
    (h0 : ∀ p ∈ ps, 0 ≤ p.quantity) (h : runCheckouts ops ps = some ps') :
    ∀ p ∈ ps', 0 ≤ p.quantity := by
  induction ops generalizing ps with
  | nil =>
    rw [runCheckouts] at h
    cases h
    exact h0
  | cons op rest ih =>
    obtain ⟨c, inp⟩ := op
    rw [runCheckouts] at h
    cases hc : processCheckout c ps inp with
    | none => rw [hc] at h; cases h
    | some res =>
      obtain ⟨c2, ps2, r2, b2⟩ := res
      rw [hc] at h
      have h2 : ∀ p ∈ ps2, 0 ≤ p.quantity := by
        have := processCheckout_inv (fun p => 0 ≤ p.quantity)
          (fun item p r _ _ hqty hp => by
            simp only [Product.addRating]
            omega)
          c ps inp (c2, ps2, r2, b2) h0 hc
        exact this
      exact ih ps2 h2 h

/-- A customer staging two units of product A. -/
def custOne : Customer := ⟨3, "P", "ad", "ph", "em", [⟨pA, 2⟩]⟩

theorem checkout_stock_nonneg_witness :
    (∀ p ∈ [pA], 0 ≤ p.quantity) ∧
    (∀ p ∈ [(⟨1, "A", 10, "c", 3, 1, 5, 1⟩ : Product)], 0 ≤ p.quantity) :=
  ⟨by decide,
    checkout_stock_nonneg [(custOne, [5])] [pA] _ (by decide)
      (by simp [runCheckouts, processCheckout, processQueue, settleItem, stackToQueue,
            acceptRating, lookupProduct, Product.addRating, custOne, pA])⟩

theorem ratingOK_avg_bounds (p : Product) (h : RatingOK p) :
    0 ≤ p.getAverageRating ∧ p.getAverageRating ≤ 5 := by
  obtain ⟨hc, hlo, hhi⟩ := h
  unfold Product.getAverageRating
  by_cases h0 : p.ratingCount = 0
  · simp [h0]
  · rw [if_neg h0]
    have hcpos : (0 : Rat) < (p.ratingCount : Rat) := by
      have h1 : (1 : Int) ≤ p.ratingCount := by omega
      have : ((1 : Int) : Rat) ≤ ((p.ratingCount : Int) : Rat) := by exact_mod_cast h1
      push_cast at this
      linarith
    constructor
    · exact div_nonneg (by linarith) (le_of_lt hcpos)
    · rw [div_le_iff₀ hcpos]
      linarith

/-- C10: checkout only ever applies `addRating` with an accepted rating in
`[1,5]`, so the bound `ratingCount ≤ ratingSum ≤ 5 * ratingCount` (with
`ratingCount ≥ 0`) is preserved across checkout, and every product's
average rating stays within `[0,5]`. -/
theorem checkout_preserves_rating_bounds (c : Customer) (ps : List Product)
    (input : List Int) (res : Customer × List Product × Option Receipt × Bool)
    (h0 : ∀ p ∈ ps, RatingOK p) (h : processCheckout c ps input = some res) :
    ∀ p ∈ res.2.1, RatingOK p ∧ 0 ≤ p.getAverageRating ∧ p.getAverageRating ≤ 5 := by
  have hmut : ∀ (item : CartItem) (p : Product) (r : Int), 1 ≤ r → r ≤ 5 →
      item.buyQty ≤ p.quantity → RatingOK p →
      RatingOK (({ p with quantity := p.quantity - item.buyQty }).addRating (r : Rat)) := by
    intro item p r hr1 hr5 _ hp
    obtain ⟨hc, hlo, hhi⟩ := hp
    simp only [Product.addRating, RatingOK]
    have hr1q : (1 : Rat) ≤ (r : Rat) := by exact_mod_cast hr1
    have hr5q : (r : Rat) ≤ 5 := by exact_mod_cast hr5
    refine ⟨by omega, ?_, ?_⟩
    · push_cast
      linarith
    · push_cast
      linarith
  have hOK : ∀ p ∈ res.2.1, RatingOK p :=
    processCheckout_inv RatingOK hmut c ps input res h0 h
  intro p hp
  exact ⟨hOK p hp, ratingOK_avg_bounds p (hOK p hp)⟩

theorem checkout_preserves_rating_bounds_witness :
    (∀ p ∈ [pA], RatingOK p) ∧
    (∀ p ∈ (((({ custOne with cartStack := [] } : Customer),
        ([(⟨1, "A", 10, "c", 3, 1, 5, 1⟩ : Product)] : List Product),
        some (⟨[successLine ⟨pA, 2⟩], 20⟩ : Receipt), true) :
          Customer × List Product × Option Receipt × Bool)).2.1,
      RatingOK p ∧ 0 ≤ p.getAverageRating ∧ p.getAverageRating ≤ 5) :=
  ⟨by intro p hp; simp only [List.mem_singleton] at hp; subst hp; constructor <;> norm_num [pA],
    checkout_preserves_rating_bounds custOne [pA] [5] _
      (by intro p hp; simp only [List.mem_singleton] at hp; subst hp
          constructor <;> norm_num [pA])
      (by simp [processCheckout, processQueue, settleItem, stackToQueue, acceptRating,
            lookupProduct, Product.addRating, successLine, custOne, pA]
          norm_num)⟩

/-! ## Processing order of checkout -/

theorem settleItem_success (item : CartItem) (input : List Int) (p : Product) (r : Int)
    (inp2 : List Int) (har : acceptRating input = some (r, inp2)) :
    ∀ ps, lookupProduct item.product.id ps = some p → item.buyQty ≤ p.quantity →
      settleItem item input ps
        = some (updateFirst item.product.id
            (fun q => ({ q with quantity := q.quantity - item.buyQty }).addRating (r : Rat)) ps,
          some (successLine item), item.product.price * item.buyQty, inp2) := by
  intro ps
  induction ps with
  | nil => intro h _; simp [lookupProduct] at h
  | cons q rest ih =>
    intro hl hq
    by_cases hid : q.id = item.product.id
    · rw [lookupProduct, if_pos hid] at hl
      cases hl
      rw [settleItem, if_pos hid, if_pos hq, har, updateFirst, if_pos hid]
    · rw [lookupProduct, if_neg hid] at hl
      rw [settleItem, if_neg hid, ih hl hq, updateFirst, if_neg hid]

theorem lookupProduct_updateFirst_ne (pid pid2 : Int) (f : Product → Product)
    (hf : ∀ q, (f q).id = q.id) (hne : pid2 ≠ pid) :
    ∀ ps, lookupProduct pid2 (updateFirst pid f ps) = lookupProduct pid2 ps := by
  intro ps
  induction ps with
  | nil => rfl
  | cons q rest ih =>
    rw [updateFirst]
    by_cases hid : q.id = pid
    · rw [if_pos hid, lookupProduct, lookupProduct,
        if_neg (by rw [hf q, hid]; exact fun h => hne h.symm),
        if_neg (by rw [hid]; exact fun h => hne h.symm)]
    · rw [if_neg hid, lookupProduct, lookupProduct, ih]

theorem processQueue_success :
    ∀ (items : List CartItem) (ps : List Product) (input : List Int),
      (items.map fun i => i.product.id).Nodup →
      (∀ i ∈ items, stockOk ps i = true) →
      (∀ x ∈ input, 1 ≤ x ∧ x ≤ 5) →
      items.length ≤ input.length →
      ∃ ps' t, processQueue items ps input
        = some (ps', items.map successLine, t, input.drop items.length) := by
  intro items
  induction items with
  | nil =>
    intro ps input _ _ _ _
    exact ⟨ps, 0, rfl⟩
  | cons item rest ih =>
    intro ps input hnd hstock hvalid hlen
    cases input with
    | nil => simp at hlen
    | cons x input2 =>
      obtain ⟨hx1, hx5⟩ := hvalid x (List.mem_cons_self x input2)
      have har : acceptRating (x :: input2) = some (x, input2) := by
        rw [acceptRating, if_pos ⟨hx1, hx5⟩]
      have hso := hstock item (List.mem_cons_self item rest)
      rw [stockOk] at hso
      cases hl : lookupProduct item.product.id ps with
      | none => rw [hl] at hso; cases hso
      | some p =>
        rw [hl] at hso
        have hq : item.buyQty ≤ p.quantity := by
          dsimp only at hso
          exact of_decide_eq_true hso
        have hset := settleItem_success item (x :: input2) p x input2 har ps hl hq
        have hfid : ∀ q : Product,
            (({ q with quantity := q.quantity - item.buyQty }).addRating (x : Rat)).id = q.id :=
          fun q => rfl
        have hnd2 : (rest.map fun i => i.product.id).Nodup := (List.nodup_cons.mp hnd).2
        have hnotmem : item.product.id ∉ rest.map fun i => i.product.id :=
          (List.nodup_cons.mp hnd).1
        have hstock2 : ∀ i ∈ rest, stockOk (updateFirst item.product.id
            (fun q => ({ q with quantity := q.quantity - item.buyQty }).addRating (x : Rat)) ps)
              i = true := by
          intro i hi
          have hne2 : i.product.id ≠ item.product.id := by
            intro hcontra
            exact hnotmem (hcontra ▸ List.mem_map_of_mem (fun j => j.product.id) hi)
          rw [stockOk, lookupProduct_updateFirst_ne item.product.id i.product.id _ hfid hne2 ps]
          have := hstock i (List.mem_cons_of_mem item hi)
          rw [stockOk] at this
          exact this
        have hvalid2 : ∀ y ∈ input2, 1 ≤ y ∧ y ≤ 5 :=
          fun y hy => hvalid y (List.mem_cons_of_mem x hy)
        have hlen2 : rest.length ≤ input2.length := by
          simp only [List.length_cons] at hlen
          omega
        obtain ⟨ps', t, heq⟩ := ih _ input2 hnd2 hstock2 hvalid2 hlen2
        refine ⟨ps', item.product.price * item.buyQty + t, ?_⟩
        rw [processQueue, hset]
        dsimp only
        rw [heq]
        rfl

/-- C1 counterexample: with A staged before B, checkout settles B first —
the receipt lists the items newest-pushed first, not in arrival order. -/
theorem checkout_not_arrival_order_cex :
    processCheckout custEx [pA, pB] [5, 4]
      = some ({ custEx with cartStack := [] },
          [⟨1, "A", 10, "c", 4, 1, 4, 1⟩, ⟨2, "B", 20, "c", 4, 1, 5, 1⟩],
          some ⟨[successLine itemB, successLine itemA], 30⟩, true)
    ∧ [successLine itemB, successLine itemA] ≠ (specArrivalOrder custEx).map successLine := by
  constructor
  · simp [processCheckout, processQueue, settleItem, stackToQueue, acceptRating,
      lookupProduct, Product.addRating, successLine, custEx, itemA, itemB, pA, pB]
    norm_num
  · simp [specArrivalOrder, successLine, custEx, itemA, itemB, pA, pB]

/-- C1 amended: when every staged item references a distinct product with
sufficient live stock and enough valid ratings are typed, checkout settles
the staged items in ledger pop order: the receipt line items appear in the
REVERSE of the original push order, newest-pushed item first. -/
theorem checkout_receipt_pop_order (c : Customer) (ps : List Product) (input : List Int)
    (hne : c.cartStack ≠ [])
    (hnd : (c.cartStack.map fun i => i.product.id).Nodup)
    (hstock : ∀ i ∈ c.cartStack, stockOk ps i = true)
    (hvalid : ∀ x ∈ input, 1 ≤ x ∧ x ≤ 5)
    (hlen : c.cartStack.length ≤ input.length) :
    ∃ ps' t, processCheckout c ps input
      = some ({ c with cartStack := [] }, ps',
          some ⟨((specArrivalOrder c).map successLine).reverse, t⟩, true) := by
  have hie : c.cartStack.isEmpty = false := by
    cases hcs : c.cartStack with
    | nil => exact absurd hcs hne
    | cons a l => rfl
  obtain ⟨ps', t, heq⟩ := processQueue_success c.cartStack ps input hnd hstock hvalid hlen
  refine ⟨ps', t, ?_⟩
  unfold processCheckout
  rw [hie]
  simp only [Bool.false_eq_true, if_false]
  rw [stackToQueue_eq, List.nil_append, heq]
  have hlines : ((specArrivalOrder c).map successLine).reverse = c.cartStack.map successLine := by
    rw [specArrivalOrder, List.map_reverse, List.reverse_reverse]
  rw [hlines]

theorem checkout_receipt_pop_order_witness :
    ∃ ps' t, processCheckout custEx [pA, pB] [5, 4]
      = some ({ custEx with cartStack := [] }, ps',
          some ⟨((specArrivalOrder custEx).map successLine).reverse, t⟩, true) :=
  checkout_receipt_pop_order custEx [pA, pB] [5, 4] (by decide) (by decide)
    (by decide) (by decide) (by decide)

/-! ## Sortedness of the rating ranker -/

theorem pqPop_fst_ge : ∀ (l : List Product) (b : Product),
    b.getAverageRating ≤ (pqPop b l).1.getAverageRating := by
  intro l
  induction l with
  | nil => intro b; simp [pqPop]
  | cons p rest ih =>
    intro b
    by_cases h : b.getAverageRating < p.getAverageRating
    · simp only [pqPop, if_pos h]
      exact le_trans (le_of_lt h) (ih p)
    · simp only [pqPop, if_neg h]
      exact ih b

theorem pqPop_snd_le : ∀ (l : List Product) (b : Product), ∀ x ∈ (pqPop b l).2,
    x.getAverageRating ≤ (pqPop b l).1.getAverageRating := by
  intro l
  induction l with
  | nil => intro b x hx; simp [pqPop] at hx
  | cons p rest ih =>
    intro b x hx
    by_cases h : b.getAverageRating < p.getAverageRating
    · simp only [pqPop, if_pos h] at hx ⊢
      rcases List.mem_cons.mp hx with hx | hx
      · subst hx
        exact le_trans (le_of_lt h) (pqPop_fst_ge rest p)
      · exact ih p x hx
    · simp only [pqPop, if_neg h] at hx ⊢
      rcases List.mem_cons.mp hx with hx | hx
      · subst hx
        exact le_trans (not_lt.mp h) (pqPop_fst_ge rest b)
      · exact ih b x hx

theorem pqPop_perm : ∀ (l : List Product) (b : Product),
    List.Perm ((pqPop b l).1 :: (pqPop b l).2) (b :: l) := by
  intro l
  induction l with
  | nil => intro b; simp [pqPop]
  | cons p rest ih =>
    intro b
    by_cases h : b.getAverageRating < p.getAverageRating
    · simp only [pqPop, if_pos h]
      exact (List.Perm.swap b (pqPop p rest).1 (pqPop p rest).2).trans ((ih p).cons b)
    · simp only [pqPop, if_neg h]
      exact ((List.Perm.swap p (pqPop b rest).1 (pqPop b rest).2).trans
        ((ih b).cons p)).trans (List.Perm.swap b p rest)

theorem pqDrain_perm : ∀ (n : Nat) (l : List Product), l.length ≤ n →
    List.Perm (pqDrain l) l := by
  intro n
  induction n with
  | zero =>
    intro l h
    rw [Nat.le_zero, List.length_eq_zero] at h
    subst h
    simp [pqDrain]
  | succ n ih =>
    intro l h
    match l with
    | [] => simp [pqDrain]
    | p :: rest =>
      rw [pqDrain]
      have h2 : (pqPop p rest).2.length ≤ n := by
        rw [pqPop_length rest p]
        simp only [List.length_cons] at h
        omega
      exact ((ih _ h2).cons (pqPop p rest).1).trans (pqPop_perm rest p)

theorem pqDrain_sorted : ∀ (n : Nat) (l : List Product), l.length ≤ n →
    List.Pairwise (fun a b => b.getAverageRating ≤ a.getAverageRating) (pqDrain l) := by
  intro n
  induction n with
  | zero =>
    intro l h
    rw [Nat.le_zero, List.length_eq_zero] at h
    subst h
    simp [pqDrain]
  | succ n ih =>
    intro l h
    match l with
    | [] => simp [pqDrain]
    | p :: rest =>
      rw [pqDrain]
      have h2 : (pqPop p rest).2.length ≤ n := by
        rw [pqPop_length rest p]
        simp only [List.length_cons] at h
        omega
      refine List.Pairwise.cons ?_ (ih _ h2)
      intro x hx
      have hmem : x ∈ (pqPop p rest).2 :=
        (pqDrain_perm n (pqPop p rest).2 h2).mem_iff.mp hx
      exact pqPop_snd_le rest p x hmem

/-- C8: the rating ranker's output is non-increasing in average rating:
every product in the extracted sequence has an average rating at least that
of every later product. -/
theorem showTopRated_sorted (ps : List Product) :
    List.Pairwise (fun a b => b.getAverageRating ≤ a.getAverageRating)
      (showTopRatedProducts ps) :=
  pqDrain_sorted ps.length ps le_rfl

/-! ## Persistence round trip -/

theorem loadSellers_spec : ∀ (ss : List Seller) (acc : List Seller) (ctr : Int),
    (loadSellers (ss.map fun s => (s.id, s.name, s.email)) acc ctr).1 = acc ++ ss := by
  intro ss
  induction ss with
  | nil => intro acc ctr; simp [loadSellers]
  | cons s rest ih =>
    intro acc ctr
    rw [List.map_cons, loadSellers, ih]
    simp

theorem loadCustomers_spec : ∀ (cs : List Customer) (acc : List Customer) (ctr : Int),
    (loadCustomers (cs.map fun c => (c.id, c.name, c.address, c.phone, c.email)) acc ctr).1
      = acc ++ cs.map stripCart := by
  intro cs
  induction cs with
  | nil => intro acc ctr; simp [loadCustomers]
  | cons c rest ih =>
    intro acc ctr
    rw [List.map_cons, loadCustomers, ih]
    simp [stripCart]

theorem loadProducts_spec : ∀ (ps : List Product) (acc : List Product) (ctr : Int),
    (loadProducts (ps.map fun p =>
        (p.id, p.name, p.price, p.category, p.quantity, p.sellerId, p.ratingSum, p.ratingCount))
      acc ctr).1 = acc ++ ps := by
  intro ps
  induction ps with
  | nil => intro acc ctr; simp [loadProducts]
  | cons p rest ih =>
    intro acc ctr
    rw [List.map_cons, loadProducts, ih]
    simp

theorem loadCarts_append (ps : List Product) :
    ∀ (l1 l2 : List (Int × Int × Int)) (cs : List Customer),
      loadCarts ps (l1 ++ l2) cs = loadCarts ps l2 (loadCarts ps l1 cs) := by
  intro l1
  induction l1 with
  | nil => intro l2 cs; rfl
  | cons line rest ih =>
    intro l2 cs
    rw [List.cons_append, loadCarts, loadCarts, ih]

/-- Loading the lines a customer wrote pushes them, one by one, onto that
customer's (reconstructed, initially empty) cart: the first-written line
ends up at the bottom, so the stack order reverses. -/
theorem loadCarts_own (ps : List Product) :
    ∀ (items : List CartItem) (h : Customer) (tl : List Customer),
      (∀ i ∈ items, (lookupProduct i.product.id ps).isSome = true) →
      loadCarts ps (items.map fun i => (h.id, i.product.id, i.buyQty)) (h :: tl)
        = { h with cartStack := (items.map (reResolve ps)).reverse ++ h.cartStack } :: tl := by
  intro items
  induction items with
  | nil => intro h tl _; rfl
  | cons i rest ih =>
    intro h tl hres
    have hi := hres i (List.mem_cons_self i rest)
    rw [Option.isSome_iff_exists] at hi
    obtain ⟨p, hp⟩ := hi
    rw [List.map_cons, loadCarts]
    have hline : loadCartLine ps (h :: tl) (h.id, i.product.id, i.buyQty)
        = { h with cartStack := ⟨p, i.buyQty⟩ :: h.cartStack } :: tl := by
      rw [loadCartLine, hp]
      dsimp only
      rw [pushToCustomer, if_pos rfl]
    rw [hline, ih { h with cartStack := ⟨p, i.buyQty⟩ :: h.cartStack } tl
      (fun j hj => hres j (List.mem_cons_of_mem i hj))]
    have hrr : reResolve ps i = ⟨p, i.buyQty⟩ := by rw [reResolve, hp]
    simp [hrr]

/-- Cart lines whose customer id differs from the head customer's id leave
the head customer untouched. -/
theorem loadCartLine_skip (ps : List Product) (line : Int × Int × Int)
    (h : Customer) (tl : List Customer) (hne : line.1 ≠ h.id) :
    loadCartLine ps (h :: tl) line = h :: loadCartLine ps tl line := by
  obtain ⟨cid, pid, qty⟩ := line
  rw [loadCartLine]
  cases hp : lookupProduct pid ps with
  | none => rw [loadCartLine, hp]
  | some p =>
    dsimp only
    rw [loadCartLine, hp]
    dsimp only
    rw [pushToCustomer, if_neg (fun hcontra => hne (by simpa using hcontra.symm))]

theorem loadCarts_skip (ps : List Product) :
    ∀ (lines : List (Int × Int × Int)) (h : Customer) (tl : List Customer),
      (∀ l ∈ lines, l.1 ≠ h.id) →
      loadCarts ps lines (h :: tl) = h :: loadCarts ps lines tl := by
  intro lines
  induction lines with
  | nil => intro h tl _; rfl
  | cons line rest ih =>
    intro h tl hne
    rw [loadCarts, loadCartLine_skip ps line h tl (hne line (List.mem_cons_self line rest)),
      loadCarts, ih h _ (fun l hl => hne l (List.mem_cons_of_mem line hl))]

theorem cartLines_cid : ∀ (cs : List Customer) (l : Int × Int × Int),
    l ∈ cartLines cs → ∃ c ∈ cs, l.1 = c.id := by
  intro cs
  induction cs with
  | nil => intro l hl; simp [cartLines] at hl
  | cons c rest ih =>
    intro l hl
    rw [cartLines] at hl
    rcases List.mem_append.mp hl with hl | hl
    · refine ⟨c, List.mem_cons_self c rest, ?_⟩
      rw [cartLinesOf] at hl
      obtain ⟨i, -, hi⟩ := List.mem_map.mp hl
      rw [← hi]
    · obtain ⟨c2, hc2, hcid⟩ := ih l hl
      exact ⟨c2, List.mem_cons_of_mem c hc2, hcid⟩

theorem loadCarts_roundtrip (ps : List Product) :
    ∀ (cs : List Customer),
      ((cs.map fun c => c.id).Nodup) →
      (∀ c ∈ cs, ∀ i ∈ c.cartStack, (lookupProduct i.product.id ps).isSome = true) →
      loadCarts ps (cartLines cs) (cs.map stripCart) = cs.map (reloadedCart ps) := by
  intro cs
  induction cs with
  | nil => intro _ _; rfl
  | cons c rest ih =>
    intro hnd hres
    rw [List.map_cons, List.nodup_cons] at hnd
    obtain ⟨hnotmem, hnd2⟩ := hnd
    rw [List.map_cons, cartLines, loadCarts_append]
    have hown := loadCarts_own ps c.cartStack (stripCart c) (rest.map stripCart)
      (hres c (List.mem_cons_self c rest))
    rw [stripCart] at hown
    dsimp only at hown
    rw [cartLinesOf, stripCart, hown]
    have htarget : ({ c with cartStack := (c.cartStack.map (reResolve ps)).reverse ++ [] }
        : Customer) = reloadedCart ps c := by
      rw [reloadedCart]
      simp
    rw [htarget]
    have hnotc : ∀ l ∈ cartLines rest, l.1 ≠ (reloadedCart ps c).id := by
      intro l hl
      obtain ⟨c2, hc2, hcid⟩ := cartLines_cid rest l hl
      rw [hcid, reloadedCart]
      dsimp only
      intro hcontra
      exact hnotmem (by rw [← hcontra]; exact List.mem_map_of_mem (fun x => x.id) hc2)
    rw [loadCarts_skip ps (cartLines rest) (reloadedCart ps c) (rest.map stripCart) hnotc,
      ih hnd2 (fun c2 hc2 => hres c2 (List.mem_cons_of_mem c hc2)), List.map_cons]

/-- C2 counterexample: a save/load round trip REVERSES the per-customer
cart ledger, because carts are written in pop order (top first) and reload
pushes in file order, sending the saved top to the bottom. -/
theorem roundtrip_cart_order_cex :
    (roundTrip ⟨[], [custEx], [pA, pB], 3, 2, 2⟩).customers.map (fun c => c.cartStack)
      = [[itemA, itemB]]
    ∧ (roundTrip ⟨[], [custEx], [pA, pB], 3, 2, 2⟩).customers.map (fun c => c.cartStack)
      ≠ (⟨[], [custEx], [pA, pB], 3, 2, 2⟩ : Marketplace).customers.map
          (fun c => c.cartStack) := by
  constructor
  · simp [roundTrip, loadData, saveSellers, saveCustomers, saveProducts, saveCarts,
      cartLines, cartLinesOf, loadSellers, loadCustomers, loadProducts, loadCarts,
      loadCartLine, pushToCustomer, lookupProduct, custEx, itemA, itemB, pA, pB]
  · simp [roundTrip, loadData, saveSellers, saveCustomers, saveProducts, saveCarts,
      cartLines, cartLinesOf, loadSellers, loadCustomers, loadProducts, loadCarts,
      loadCartLine, pushToCustomer, lookupProduct, custEx, itemA, itemB, pA, pB]

/-- C2 amended: with distinct customer ids and every staged product id
resolvable, a save/load round trip reproduces the seller and product
collections field-for-field and every customer's scalar fields, but each
cart ledger comes back with its items re-resolved against the live product
records and in REVERSED LIFO order. -/
theorem save_load_roundtrip (m : Marketplace)
    (hnd : (m.customers.map fun c => c.id).Nodup)
    (hres : ∀ c ∈ m.customers, ∀ i ∈ c.cartStack,
      (lookupProduct i.product.id m.products).isSome = true) :
    (roundTrip m).sellers = m.sellers ∧ (roundTrip m).products = m.products ∧
    (roundTrip m).customers = m.customers.map (reloadedCart m.products) := by
  have hs : (roundTrip m).sellers = m.sellers := by
    rw [roundTrip, loadData]
    exact (loadSellers_spec m.sellers [] 1).trans (List.nil_append m.sellers)
  have hp : (roundTrip m).products = m.products := by
    rw [roundTrip, loadData]
    exact (loadProducts_spec m.products [] 1).trans (List.nil_append m.products)
  refine ⟨hs, hp, ?_⟩
  rw [roundTrip, loadData]
  dsimp only
  have hps : (loadProducts (saveProducts m) [] 1).1 = m.products :=
    (loadProducts_spec m.products [] 1).trans (List.nil_append m.products)
  have hcs : (loadCustomers (saveCustomers m) [] 1).1 = m.customers.map stripCart :=
    (loadCustomers_spec m.customers [] 1).trans (List.nil_append _)
  rw [hps, hcs, saveCarts]
  exact loadCarts_roundtrip m.products m.customers hnd hres

theorem save_load_roundtrip_witness :
    (roundTrip ⟨[⟨1, "S", "se"⟩], [custOne], [pA], 2, 2, 4⟩).sellers = [⟨1, "S", "se"⟩] ∧
    (roundTrip ⟨[⟨1, "S", "se"⟩], [custOne], [pA], 2, 2, 4⟩).products = [pA] ∧
    (roundTrip ⟨[⟨1, "S", "se"⟩], [custOne], [pA], 2, 2, 4⟩).customers
      = [custOne].map (reloadedCart [pA]) :=
  save_load_roundtrip ⟨[⟨1, "S", "se"⟩], [custOne], [pA], 2, 2, 4⟩ (by decide) (by decide)
